import Mathlib

/-
Verification of the plist XML parser (src/lib/plist/parser.ts) against its
natural-language specification.

The source is the classic Ruby `plist` library (transcribed with TypeScript
surface syntax); the model below embeds its three components faithfully:

  * the tag registry (`PTag.mappings`, populated by the `inherited` hook from
    the class names PList, PDict, PKey, PString, PArray, PInteger, PTrue,
    PFalse, PReal, PDate, PData — modelled as a static table, in definition
    order);
  * the stream scanner (`StreamParser.parse`): an ordered-priority pattern
    scan over the input text (comment, xml declaration, doctype, start tag,
    text run, end tag, otherwise raise "Unimplemented element");
  * the tree builder (`Listener`): an open-node stack driven by the scanner
    events, with per-variant `to_ruby` conversion.

External collaborators (Ruby stdlib: `DateTime.parse`, `Base64.decode64`,
`Marshal.load`) are abstracted into an `Env` record; Ruby-core string
semantics that the parser relies on (`String#to_i`, `String#to_f`,
`CGI.unescapeHTML`, `Hash#[]=`) are modelled concretely.  Machine floats are
modelled as exact rationals (`String#to_f`'s leading-number parse, without
IEEE rounding); no claim depends on float arithmetic.  File access and
encoding reinterpretation (`force_encoding`) have no observable effect on the
decoded-text model and are modelled as the identity.
-/

namespace Plist

/-- One variant per registered node class of the source (PTrue/PFalse are
`ptrue`/`pfalse` because `true`/`false` are Lean keywords). -/
inductive PTagKind where
  | plist
  | dict
  | key
  | string
  | array
  | integer
  | ptrue
  | pfalse
  | real
  | date
  | data
deriving DecidableEq, Repr

/-- The Ruby values produced by conversion: nil, booleans, Integer, Float
(modelled as an exact rational), String, DateTime (abstract token carried as a
string), Array, Hash (insertion-ordered association list), and the StringIO
fallback of `PData.to_ruby` (`ioHandle`, holding the raw decoded bytes). -/
inductive RValue where
  | null
  | bool (b : Bool)
  | int (n : Int)
  | real (r : Rat)
  | str (s : String)
  | date (d : String)
  | array (xs : List RValue)
  | hash (pairs : List (RValue × RValue))
  | ioHandle (contents : String)

/-- Failure conditions of the source.  `unimplementedElement` is the scanner's
`raise "Unimplemented element"`; `unknownTag` is the crash of
`new (PTag.mappings[name])()` when the lookup misses; `nilTagEnd` is the crash
of `tag_end` popping an empty stack; `dateParse` is the exception of
`DateTime.parse` (including a nil text).  `fuelExhausted` is a modelling
artifact of the scan loop's fuel and is unreachable from `parse_xml`, which
supplies more fuel than the input length while every scanner step consumes at
least one character. -/
inductive PErr where
  | unimplementedElement
  | unknownTag
  | nilTagEnd
  | dateParse
  | fuelExhausted
deriving DecidableEq, Repr

/-- The external collaborators used by the conversions: `DateTime.parse`
(`none` models its exception on unparsable text), `Base64.decode64` (total),
and `Marshal.load` (`none` models any exception). -/
structure Env where
  dateTimeParse : String → Option String
  base64decode : String → String
  marshalLoad : String → Option RValue

/-- Ruby regexp whitespace class `\s`: space, tab, CR, LF, vertical tab, form
feed. -/
def isRubySpace (c : Char) : Bool :=
  c = ' ' || c = '\t' || c = '\r' || c = '\n' || c = '\x0B' || c = '\x0C'

/-- Models `text.gsub(/\s+/, '')` in `PData.to_ruby`: removes every
whitespace character. -/
def stripWs (s : String) : String :=
  ⟨s.data.filter (fun c => !isRubySpace c)⟩

/-- One optional leading sign, as consumed by Ruby's numeric string parses. -/
def splitSign : List Char → (Int × List Char)
  | '-' :: rest => (-1, rest)
  | '+' :: rest => (1, rest)
  | cs => (1, cs)

/-- Digit run with single underscore separators between digits, as accepted by
Ruby's `String#to_i` / `String#to_f`; returns the accumulated value and the
unconsumed remainder. -/
def intDigitsRest (acc : Nat) : List Char → (Nat × List Char)
  | [] => (acc, [])
  | c :: rest =>
    if c.isDigit then intDigitsRest (10 * acc + (c.toNat - 48)) rest
    else if c = '_' then
      match rest with
      | d :: rest2 =>
        if d.isDigit then intDigitsRest (10 * acc + (d.toNat - 48)) rest2
        else (acc, c :: rest)
      | [] => (acc, [c])
    else (acc, c :: rest)

/-- Ruby `String#to_i`: skip leading whitespace, one optional sign, then the
leading digit run (underscore separators allowed); 0 when there is no leading
digit.  It never raises. -/
def ruby_to_i (s : String) : Int :=
  let p := splitSign (s.data.dropWhile isRubySpace)
  match p.2 with
  | c :: rest => if c.isDigit then p.1 * ((intDigitsRest (c.toNat - 48) rest).1 : Int) else 0
  | [] => 0

/-- True when, after leading whitespace and one optional sign, the text does
not start with a digit — exactly the inputs on which `String#to_i` falls back
to 0. -/
def lacksIntPrefix (s : String) : Bool :=
  match (splitSign (s.data.dropWhile isRubySpace)).2 with
  | c :: _ => !c.isDigit
  | [] => true

/-- Value of a plain digit run. -/
def digitsVal (ds : List Char) : Nat :=
  ds.foldl (fun a c => 10 * a + (c.toNat - 48)) 0

/-- Ruby `String#to_f`, modelled as an exact rational: skip leading
whitespace, one optional sign, optional integer digits (underscore separators
allowed), optional fraction, optional exponent; 0.0 when no leading digits at
all.  It never raises.  (IEEE rounding and underscore separators inside the
fraction are not modelled; no claim depends on them.) -/
def ruby_to_f (s : String) : Rat :=
  let p := splitSign (s.data.dropWhile isRubySpace)
  let ipart : Nat × List Char :=
    match p.2 with
    | c :: rest => if c.isDigit then intDigitsRest (c.toNat - 48) rest else (0, c :: rest)
    | [] => (0, [])
  let hasInt : Bool :=
    match p.2 with
    | c :: _ => c.isDigit
    | [] => false
  let fpart : Rat × Bool × List Char :=
    match ipart.2 with
    | '.' :: d :: rest2 =>
      if d.isDigit then
        let ds := (d :: rest2).takeWhile Char.isDigit
        (((digitsVal ds : Rat) / (10 : Rat) ^ ds.length), true, (d :: rest2).dropWhile Char.isDigit)
      else (0, false, ipart.2)
    | other => (0, false, other)
  if hasInt || fpart.2.1 then
    let ex : Int :=
      match fpart.2.2 with
      | e :: restE =>
        if e = 'e' || e = 'E' then
          let q := splitSign restE
          match q.2 with
          | d :: restD =>
            if d.isDigit then q.1 * (digitsVal ((d :: restD).takeWhile Char.isDigit) : Int) else 0
          | [] => 0
        else 0
      | [] => 0
    (p.1 : Rat) * ((ipart.1 : Rat) + fpart.1) * (10 : Rat) ^ ex
  else 0

/-- Hexadecimal digit test for numeric character references. -/
def isHexDigit (c : Char) : Bool :=
  c.isDigit || ('a' ≤ c && c ≤ 'f') || ('A' ≤ c && c ≤ 'F')

/-- Hexadecimal digit value. -/
def hexDigitVal (c : Char) : Nat :=
  if c.isDigit then c.toNat - 48
  else if 'a' ≤ c && c ≤ 'f' then c.toNat - 87
  else c.toNat - 55

/-- Value of a hexadecimal digit run. -/
def hexVal (ds : List Char) : Nat :=
  ds.foldl (fun a c => 16 * a + hexDigitVal c) 0

/-- One HTML entity after a literal ampersand, as recognized by Ruby's
`CGI.unescapeHTML` (the stdlib collaborator of `PKey.to_ruby` /
`PString.to_ruby`): the named entities amp, lt, gt, quot, apos and decimal or
hexadecimal character references.  Returns the decoded character and the
number of characters consumed after the ampersand.  (Out-of-range character
references map to the null character rather than raising; no claim depends on
them.) -/
def entityAfterAmp (cs : List Char) : Option (Char × Nat) :=
  if cs.take 4 = ("amp;").data then some ('&', 4)
  else if cs.take 3 = ("lt;").data then some ('<', 3)
  else if cs.take 3 = ("gt;").data then some ('>', 3)
  else if cs.take 5 = ("quot;").data then some ('"', 5)
  else if cs.take 5 = ("apos;").data then some (Char.ofNat 39, 5)
  else
    match cs with
    | '#' :: 'x' :: rest =>
      let ds := rest.takeWhile isHexDigit
      if ds ≠ [] && (rest.drop ds.length).head? == some ';' then
        some (Char.ofNat (hexVal ds), 2 + ds.length + 1)
      else none
    | '#' :: rest =>
      let ds := rest.takeWhile Char.isDigit
      if ds ≠ [] && (rest.drop ds.length).head? == some ';' then
        some (Char.ofNat (digitsVal ds), 1 + ds.length + 1)
      else none
    | _ => none

/-- Left-to-right entity replacement.  The fuel argument is a modelling
artifact for structural recursion: every step consumes at least one character
while spending one unit of fuel, so fuel equal to the length never runs out
(when it would, the remaining text is returned unchanged). -/
def unescapeGo : Nat → List Char → List Char
  | _, [] => []
  | 0, cs => cs
  | fuel + 1, '&' :: rest =>
    match entityAfterAmp rest with
    | some p => p.1 :: unescapeGo fuel (rest.drop p.2)
    | none => '&' :: unescapeGo fuel rest
  | fuel + 1, c :: rest => c :: unescapeGo fuel rest

/-- Models `CGI.unescapeHTML`. -/
def unescapeHTML (s : String) : String :=
  ⟨unescapeGo s.data.length s.data⟩

/-- A node of the document tree: one registered variant, the raw character
data collected between its tags (`none` when never set), and the nested nodes
collected while it was on top of the open stack. -/
inductive PNode where
  | mk (kind : PTagKind) (text : Option String) (children : List PNode)

/-- The variant of a node. -/
def PNode.kind : PNode → PTagKind
  | PNode.mk k _ _ => k

/-- The collected character data of a node. -/
def PNode.text : PNode → Option String
  | PNode.mk _ t _ => t

/-- The collected children of a node. -/
def PNode.children : PNode → List PNode
  | PNode.mk _ _ ch => ch

/-- The node with its text replaced (the assignment `node.text = contents`). -/
def PNode.withText : PNode → Option String → PNode
  | PNode.mk k _ ch, t => PNode.mk k t ch

/-- The node with one more child appended (`node.children.push(last)`). -/
def PNode.pushChild : PNode → PNode → PNode
  | PNode.mk k t ch, c => PNode.mk k t (ch ++ [c])

/-- The registry keys in definition order of the node classes, as produced by
the `inherited` hook (class name lowercased, leading `p` stripped except for
`plist`) and consumed by `PTag.mappings.keys.join('|')`. -/
def PTag.mappingKeys : List String :=
  ["plist", "dict", "key", "string", "array", "integer", "true", "false", "real", "date", "data"]

/-- The tag registry `PTag.mappings`: exact (case-sensitive) lookup from the
registered name to the variant. -/
def PTag.mappings (name : String) : Option PTagKind :=
  if name = ("plist") then some PTagKind.plist
  else if name = ("dict") then some PTagKind.dict
  else if name = ("key") then some PTagKind.key
  else if name = ("string") then some PTagKind.string
  else if name = ("array") then some PTagKind.array
  else if name = ("integer") then some PTagKind.integer
  else if name = ("true") then some PTagKind.ptrue
  else if name = ("false") then some PTagKind.pfalse
  else if name = ("real") then some PTagKind.real
  else if name = ("date") then some PTagKind.date
  else if name = ("data") then some PTagKind.data
  else none

mutual

/-- Structural equality on converted values, used to model Ruby `Hash` key
lookup (`eql?` on these value shapes is structural). -/
def RValue.beq : RValue → RValue → Bool
  | RValue.null, RValue.null => true
  | RValue.bool a, RValue.bool b => a == b
  | RValue.int a, RValue.int b => a == b
  | RValue.real a, RValue.real b => a == b
  | RValue.str a, RValue.str b => a == b
  | RValue.date a, RValue.date b => a == b
  | RValue.array a, RValue.array b => RValue.beqList a b
  | RValue.hash a, RValue.hash b => RValue.beqPairs a b
  | RValue.ioHandle a, RValue.ioHandle b => a == b
  | _, _ => false

/-- Pointwise `RValue.beq` on lists. -/
def RValue.beqList : List RValue → List RValue → Bool
  | [], [] => true
  | a :: as, b :: bs => RValue.beq a b && RValue.beqList as bs
  | _, _ => false

/-- Pointwise `RValue.beq` on pair lists. -/
def RValue.beqPairs : List (RValue × RValue) → List (RValue × RValue) → Bool
  | [], [] => true
  | a :: as, b :: bs => RValue.beq a.1 b.1 && RValue.beq a.2 b.2 && RValue.beqPairs as bs
  | _, _ => false

end

/-- Models Ruby `Hash` assignment `dict[key] = value`: an existing key keeps
its insertion position and has its value overwritten (last write wins), a new
key is appended. -/
def hashInsert : List (RValue × RValue) → RValue → RValue → List (RValue × RValue)
  | [], k, v => [(k, v)]
  | p :: rest, k, v =>
    if RValue.beq p.1 k then (p.1, v) :: rest else p :: hashInsert rest k v

mutual

/-- The per-variant `to_ruby` conversions of the node classes (PList, PDict,
PKey, PString, PArray, PInteger, PTrue, PFalse, PReal, PDate, PData). -/
def to_ruby (env : Env) : PNode → Except PErr RValue
  | PNode.mk k t ch =>
    match k with
    | PTagKind.plist =>
      -- PList: children[0].to_ruby when children 'are' present, else nil
      match ch with
      | [] => Except.ok RValue.null
      | c :: _ => to_ruby env c
    | PTagKind.dict =>
      -- PDict: alternate children as (key, value), dict[key] = value
      (dictGo env ch none []).map RValue.hash
    | PTagKind.key =>
      -- PKey: CGI.unescapeHTML(text || '')
      Except.ok (RValue.str (unescapeHTML (t.getD "")))
    | PTagKind.string =>
      -- PString: CGI.unescapeHTML(text || '')
      Except.ok (RValue.str (unescapeHTML (t.getD "")))
    | PTagKind.array =>
      -- PArray: children.collect(&:to_ruby)
      (arrayGo env ch).map RValue.array
    | PTagKind.integer =>
      -- PInteger: text.to_i (nil.to_i is 0)
      Except.ok (RValue.int (match t with | none => 0 | some s => ruby_to_i s))
    | PTagKind.ptrue => Except.ok (RValue.bool true)
    | PTagKind.pfalse => Except.ok (RValue.bool false)
    | PTagKind.real =>
      -- PReal: text.to_f (nil.to_f is 0.0)
      Except.ok (RValue.real (match t with | none => 0 | some s => ruby_to_f s))
    | PTagKind.date =>
      -- PDate: DateTime.parse(text); raises on nil or unparsable text
      match t with
      | none => Except.error PErr.dateParse
      | some s =>
        match env.dateTimeParse s with
        | none => Except.error PErr.dateParse
        | some d => Except.ok (RValue.date d)
    | PTagKind.data =>
      -- PData: Base64.decode64(text.gsub(/\s+/, '')) unless text.nil?, then
      -- Marshal.load(data) with a rescue-all returning a StringIO over data.
      -- With nil text, Marshal.load(nil) raises and the StringIO is empty.
      match t with
      | none => Except.ok (RValue.ioHandle "")
      | some s =>
        match env.marshalLoad (env.base64decode (stripWs s)) with
        | some v => Except.ok v
        | none => Except.ok (RValue.ioHandle (env.base64decode (stripWs s)))

/-- The `children.each` loop of `PDict.to_ruby`: a pending converted key
alternates with a value write; a trailing pending key at the end of the list
is discarded. -/
def dictGo (env : Env) :
    List PNode → Option RValue → List (RValue × RValue) → Except PErr (List (RValue × RValue))
  | [], _, acc => Except.ok acc
  | c :: rest, none, acc => do
    let k ← to_ruby env c
    dictGo env rest (some k) acc
  | c :: rest, some k, acc => do
    let v ← to_ruby env c
    dictGo env rest none (hashInsert acc k v)

/-- The `children.collect` loop of `PArray.to_ruby`. -/
def arrayGo (env : Env) : List PNode → Except PErr (List RValue)
  | [] => Except.ok []
  | c :: rest => do
    let v ← to_ruby env c
    let vs ← arrayGo env rest
    Except.ok (v :: vs)

end

/-- Scanner events delivered to the listener. -/
inductive Event where
  | tagStart (name : String)
  | text (contents : String)
  | tagEnd (name : String)

/-- Listener state: the stored result (initially nil) and the open-node
stack.  The source field is named `open` (a Lean keyword); the list head is
the most recently opened node (the Ruby array's last element). -/
structure LState where
  result : RValue
  openStack : List PNode

/-- `Listener#tag_start`: `open.push(new (PTag.mappings[name])())`.  A missed
lookup crashes the constructor call (the UnknownTag condition). -/
def Listener.tag_start (st : LState) (name : String) : Except PErr LState :=
  match PTag.mappings name with
  | some k => Except.ok { st with openStack := PNode.mk k none [] :: st.openStack }
  | none => Except.error PErr.unknownTag

/-- `Listener#text`: when the stack is non-empty, `open.last.text = contents`
— an assignment that replaces any previously delivered text. -/
def Listener.text (st : LState) (contents : String) : LState :=
  match st.openStack with
  | [] => st
  | top :: rest => { st with openStack := top.withText (some contents) :: rest }

/-- `Listener#tag_end`: pop the stack; when it becomes empty the popped
node's conversion is stored as the result, otherwise the popped node joins
the new top's children.  Popping an empty stack crashes (`nil.to_ruby`).  The
name argument is ignored, as in the source. -/
def Listener.tag_end (env : Env) (st : LState) (_name : String) : Except PErr LState :=
  match st.openStack with
  | [] => Except.error PErr.nilTagEnd
  | last :: rest =>
    match rest with
    | [] => do
      let v ← to_ruby env last
      Except.ok { result := v, openStack := [] }
    | top :: rest2 => Except.ok { st with openStack := top.pushChild last :: rest2 }

/-- The suffix after the first occurrence of `pat` (a non-greedy scan through
the delimiter), or `none` when `pat` does not occur. -/
def dropThrough (pat : List Char) : List Char → Option (List Char)
  | [] => none
  | c :: rest =>
    if pat.isPrefixOf (c :: rest) then some ((c :: rest).drop pat.length)
    else dropThrough pat rest

/-- The suffix after the first character satisfying `stop`, or `none`. -/
def dropThroughAny (stop : Char → Bool) : List Char → Option (List Char)
  | [] => none
  | c :: rest => if stop c then some rest else dropThroughAny stop rest

/-- Case-insensitive literal prefix match returning the matched input
characters in their original spelling together with the remainder (the regexp
tag patterns carry the `i` flag, and the capture reproduces the input). -/
def dropPrefixCI : List Char → List Char → Option (List Char × List Char)
  | [], cs => some ([], cs)
  | _ :: _, [] => none
  | p :: ps, c :: cs =>
    if c.toLower = p.toLower then
      match dropPrefixCI ps cs with
      | some pr => some (c :: pr.1, pr.2)
      | none => none
    else none

/-- The registered-name alternation of the tag patterns: the first name that
case-insensitively prefixes the input (the names never overlap, so regexp
alternation order is immaterial, but the registry order is kept). -/
def matchTagName : List String → List Char → Option (List Char × List Char)
  | [], _ => none
  | n :: ns, cs =>
    match dropPrefixCI n.data cs with
    | some r => some r
    | none => matchTagName ns cs

/-- The XMLDECL_PATTERN branch: `<?xml`, at least one whitespace character,
lazily through the first question mark, then a greedy run of closing angle
brackets.  The extracted encoding only drives `force_encoding`, which is the
identity on the decoded-text model, so the branch consumes input and emits no
event. -/
def scanXmlDecl (cs : List Char) : Option (List Char) :=
  if ("<?xml").data.isPrefixOf cs then
    match cs.drop 5 with
    | c :: rest =>
      if isRubySpace c then
        match dropThrough ['?'] (c :: rest) with
        | some rest2 => some (rest2.dropWhile (fun x => x = '>'))
        | none => none
      else none
    | [] => none
  else none

/-- The DOCTYPE_PATTERN branch: optional whitespace, `<!DOCTYPE`, at least
one whitespace character, lazily through the first open square bracket or
closing angle bracket. -/
def scanDoctype (cs : List Char) : Option (List Char) :=
  let cs2 := cs.dropWhile isRubySpace
  if ("<!DOCTYPE").data.isPrefixOf cs2 then
    match cs2.drop 9 with
    | c :: rest =>
      if isRubySpace c then dropThroughAny (fun x => x = '[' || x = '>') (c :: rest) else none
    | [] => none
  else none

/-- The start_tag pattern: `<`, a registered name (case-insensitive), a
greedy run of non-`>` attribute characters, `>`.  Returns the captured name
(original spelling), whether the attribute run ends in `/` (the self-closing
check `scanner[2] =~ /\/$/`), and the remainder. -/
def scanStartTag (cs : List Char) : Option (String × Bool × List Char) :=
  match cs with
  | '<' :: rest =>
    match matchTagName PTag.mappingKeys rest with
    | some (orig, rest2) =>
      let attrs := rest2.takeWhile (fun c => c ≠ '>')
      match rest2.drop attrs.length with
      | '>' :: rest3 => some (⟨orig⟩, attrs.getLast? == some '/', rest3)
      | _ => none
    | none => none
  | _ => none

/-- The end_tag pattern: `</`, a registered name (case-insensitive), a greedy
run of non-`>` characters, `>`. -/
def scanEndTag (cs : List Char) : Option (String × List Char) :=
  match cs with
  | '<' :: '/' :: rest =>
    match matchTagName PTag.mappingKeys rest with
    | some (orig, rest2) =>
      let attrs := rest2.takeWhile (fun c => c ≠ '>')
      match rest2.drop attrs.length with
      | '>' :: rest3 => some (⟨orig⟩, rest3)
      | _ => none
    | none => none
  | _ => none

/-- One iteration of the `until scanner.eos?` loop of `StreamParser.parse`,
with the source's branch priority: comment, xml declaration, doctype, start
tag, text run, end tag, otherwise `raise "Unimplemented element"`.  Returns
the events to deliver and the unconsumed remainder.  A comment opener whose
closer is missing consumes only the opener, as in the source (the scan of
COMMENT_END simply fails). -/
def scanStep (cs : List Char) : Except PErr (List Event × List Char) :=
  if ("<!--").data.isPrefixOf cs then
    match dropThrough ("-->").data (cs.drop 4) with
    | some rest => Except.ok ([], rest)
    | none => Except.ok ([], cs.drop 4)
  else
    match scanXmlDecl cs with
    | some rest => Except.ok ([], rest)
    | none =>
      match scanDoctype cs with
      | some rest => Except.ok ([], rest)
      | none =>
        match scanStartTag cs with
        | some (name, selfClose, rest) =>
          Except.ok
            (if selfClose then [Event.tagStart name, Event.tagEnd name] else [Event.tagStart name],
              rest)
        | none =>
          match cs.takeWhile (fun c => c ≠ '<') with
          | [] =>
            match scanEndTag cs with
            | some (name, rest) => Except.ok ([Event.tagEnd name], rest)
            | none => Except.error PErr.unimplementedElement
          | t => Except.ok ([Event.text ⟨t⟩], cs.drop t.length)

/-- Deliver one event to the listener. -/
def applyEvent (env : Env) (st : LState) : Event → Except PErr LState
  | Event.tagStart n => Listener.tag_start st n
  | Event.text c => Except.ok (Listener.text st c)
  | Event.tagEnd n => Listener.tag_end env st n

/-- Deliver events in order, propagating the first failure. -/
def applyEvents (env : Env) : LState → List Event → Except PErr LState
  | st, [] => Except.ok st
  | st, e :: es => do
    let st2 ← applyEvent env st e
    applyEvents env st2 es

/-- The scan loop of `StreamParser.parse`.  The fuel argument is a modelling
artifact for structural recursion; every iteration consumes at least one
character, so the fuel supplied by `parse_xml` (input length plus one) never
runs out. -/
def scanLoop (env : Env) : Nat → LState → List Char → Except PErr LState
  | _, st, [] => Except.ok st
  | 0, _, _ => Except.error PErr.fuelExhausted
  | fuel + 1, st, cs => do
    let r ← scanStep cs
    let st2 ← applyEvents env st r.1
    scanLoop env fuel st2 r.2

/-- `Plist.parse_xml`: run the stream parser over the text with a fresh
listener (result nil, empty stack) and return `listener.result`. -/
def parse_xml (env : Env) (s : String) : Except PErr RValue :=
  (scanLoop env (s.data.length + 1) { result := RValue.null, openStack := [] } s.data).map
    LState.result

/-- A concrete environment for concrete evaluations: every date is
unparsable, base64 decoding is the identity, every marshal load fails. -/
def env0 : Env :=
  { dateTimeParse := fun _ => none, base64decode := fun s => s, marshalLoad := fun _ => none }

/-- The two-per-pair children list of an alternating dict: each pair
contributes its key node followed by its value node. -/
def pairsFlatten (items : List (PNode × PNode)) : List PNode :=
  items.foldr (fun p acc => p.1 :: p.2 :: acc) []

/-- The specification's reading of dict conversion: a mapping built from the
(key, value) pairs in order with Ruby hash-assignment semantics (insertion
order of a key fixed at first write, last write wins), with each key
converted as a key node converts and each value converted by `v`. -/
def dictOfPairs (v : PNode → RValue) (items : List (PNode × PNode)) : List (RValue × RValue) :=
  items.foldl
    (fun a p => hashInsert a (RValue.str (unescapeHTML (p.1.text.getD ""))) (v p.2)) []

/-- Key-node conversion is total: `CGI.unescapeHTML(text || '')`. -/
lemma to_ruby_of_key (env : Env) (n : PNode) (h : n.kind = PTagKind.key) :
    to_ruby env n = Except.ok (RValue.str (unescapeHTML (n.text.getD ""))) := by
  cases n with
  | mk k t ch =>
    simp only [PNode.kind] at h
    subst h
    rfl

/-- The dict loop over an alternating prefix of key/value pairs accumulates
exactly the hash-assignment fold of the converted pairs. -/
lemma dictGo_pairs (env : Env) (v : PNode → RValue) :
    ∀ (items : List (PNode × PNode)) (rest : List PNode) (acc : List (RValue × RValue)),
      (∀ p ∈ items, p.1.kind = PTagKind.key ∧ to_ruby env p.2 = Except.ok (v p.2)) →
      dictGo env (pairsFlatten items ++ rest) none acc =
        dictGo env rest none
          (items.foldl
            (fun a p => hashInsert a (RValue.str (unescapeHTML (p.1.text.getD ""))) (v p.2))
            acc) := by
  intro items
  induction items with
  | nil => intro rest acc _; rfl
  | cons p items ih =>
    intro rest acc h
    obtain ⟨hk, hv⟩ := h p (List.mem_cons_self _ _)
    have hkey := to_ruby_of_key env p.1 hk
    have e1 : pairsFlatten (p :: items) ++ rest = p.1 :: p.2 :: (pairsFlatten items ++ rest) := rfl
    rw [e1]
    have e2 : dictGo env (p.1 :: p.2 :: (pairsFlatten items ++ rest)) none acc =
        Except.bind (to_ruby env p.1)
          (fun k => dictGo env (p.2 :: (pairsFlatten items ++ rest)) (some k) acc) := rfl
    rw [e2, hkey]
    show Except.bind (to_ruby env p.2)
        (fun w => dictGo env (pairsFlatten items ++ rest) none
          (hashInsert acc (RValue.str (unescapeHTML (p.1.text.getD ""))) w)) = _
    rw [hv]
    show dictGo env (pairsFlatten items ++ rest) none
        (hashInsert acc (RValue.str (unescapeHTML (p.1.text.getD ""))) (v p.2)) = _
    rw [ih rest _ (fun q hq => h q (List.mem_cons_of_mem _ hq))]
    rfl

/-- A single trailing key node is converted and then discarded by the dict
loop. -/
lemma dictGo_trailing_key (env : Env) (t : PNode) (ht : t.kind = PTagKind.key)
    (acc : List (RValue × RValue)) : dictGo env [t] none acc = Except.ok acc := by
  have e : dictGo env [t] none acc =
      Except.bind (to_ruby env t) (fun k => dictGo env [] (some k) acc) := rfl
  rw [e, to_ruby_of_key env t ht]
  rfl

/-- `String#to_i` yields 0 exactly when no digit follows the optional
whitespace and sign. -/
lemma ruby_to_i_of_lacksIntPrefix (s : String) (h : lacksIntPrefix s = true) :
    ruby_to_i s = 0 := by
  unfold ruby_to_i
  unfold lacksIntPrefix at h
  cases hc : (splitSign (s.data.dropWhile isRubySpace)).2 with
  | nil => simp [hc]
  | cons c rest =>
    rw [hc] at h
    simp only [Bool.not_eq_true'] at h
    simp [hc, h]

/-- C1 counterexample: the input `<true/><dict>` ends with a dict node still
open on the stack, yet `parse_xml` reports success and even returns a result
value (the boolean stored when the self-closing true element completed) — it
does not fail with any condition, contradicting the claimed
UnterminatedDocument failure. -/
theorem unterminated_claim_counterexample :
    parse_xml env0 ("<true/><dict>") = Except.ok (RValue.bool true) ∧
      ∀ e : PErr, parse_xml env0 ("<true/><dict>") ≠ Except.error e := by
  refine ⟨rfl, fun e he => ?_⟩
  rw [show parse_xml env0 ("<true/><dict>") = Except.ok (RValue.bool true) from rfl] at he
  simp at he

/-- C1 (amended): when the input ends with a node still open, the parse does
not fail at all — the scan loop simply reaches the end of input and
`parse_xml` returns the listener's stored result, which is the nil value when
no top-level element was completed.  Stated for a lone unclosed start tag of
every registered name. -/
theorem unterminated_input_returns_stored_result (env : Env) (name : String)
    (h : name ∈ PTag.mappingKeys) :
    parse_xml env ("<" ++ name ++ ">") = Except.ok RValue.null := by
  fin_cases h <;> rfl

/-- C1 witness: the amended theorem applied to the registered name `array`. -/
theorem unterminated_input_returns_stored_result_witness :
    parse_xml env0 ("<array>") = Except.ok RValue.null :=
  unterminated_input_returns_stored_result env0 ("array") (by decide)

/-- C2 counterexample: an integer node with non-numeric text `abc` converts
successfully to the default 0 instead of failing with UnsupportedScalar. -/
theorem integer_unsupported_scalar_counterexample :
    to_ruby env0 (PNode.mk PTagKind.integer (some ("abc")) []) =
      Except.ok (RValue.int 0) := rfl

/-- C2 (amended): integer conversion never fails — `text.to_i` substitutes
the default 0 whenever the text has no leading integer (after optional
whitespace and sign), for any environment. -/
theorem integer_nonnumeric_converts_to_zero (env : Env) (t : String) (ch : List PNode)
    (h : lacksIntPrefix t = true) :
    to_ruby env (PNode.mk PTagKind.integer (some t) ch) = Except.ok (RValue.int 0) := by
  have e : to_ruby env (PNode.mk PTagKind.integer (some t) ch) =
      Except.ok (RValue.int (ruby_to_i t)) := rfl
  rw [e, ruby_to_i_of_lacksIntPrefix t h]

/-- C2 witness: the amended theorem applied to the non-numeric text `xyz`. -/
theorem integer_nonnumeric_converts_to_zero_witness :
    to_ruby env0 (PNode.mk PTagKind.integer (some ("xyz")) []) =
      Except.ok (RValue.int 0) :=
  integer_nonnumeric_converts_to_zero env0 ("xyz") [] rfl

/-- C3 counterexample: a dict node with a single (odd, trailing) key child
converts successfully to the empty mapping, silently dropping the key instead
of failing with MalformedDict. -/
theorem malformed_dict_counterexample :
    to_ruby env0 (PNode.mk PTagKind.dict none [PNode.mk PTagKind.key (some ("a")) []]) =
      Except.ok (RValue.hash []) := rfl

/-- C3 (amended): a dict node whose children are alternating (key, value)
pairs followed by one trailing key converts successfully to the mapping of
the complete pairs — the trailing key is converted and then silently
discarded, with no MalformedDict condition. -/
theorem dict_odd_children_drop_trailing_key (env : Env) (dtext : Option String)
    (items : List (PNode × PNode)) (v : PNode → RValue) (t : PNode)
    (h : ∀ p ∈ items, p.1.kind = PTagKind.key ∧ to_ruby env p.2 = Except.ok (v p.2))
    (ht : t.kind = PTagKind.key) :
    to_ruby env (PNode.mk PTagKind.dict dtext (pairsFlatten items ++ [t])) =
      Except.ok (RValue.hash (dictOfPairs v items)) := by
  have e : to_ruby env (PNode.mk PTagKind.dict dtext (pairsFlatten items ++ [t])) =
      (dictGo env (pairsFlatten items ++ [t]) none []).map RValue.hash := rfl
  rw [e, dictGo_pairs env v items [t] [] h, dictGo_trailing_key env t ht]
  rfl

/-- C3 witness: the amended theorem applied to children
`[key("a"), string("x"), key("z")]`, yielding the mapping of the one complete
pair. -/
theorem dict_odd_children_drop_trailing_key_witness :
    to_ruby env0 (PNode.mk PTagKind.dict none
        [PNode.mk PTagKind.key (some ("a")) [], PNode.mk PTagKind.string (some ("x")) [],
          PNode.mk PTagKind.key (some ("z")) []]) =
      Except.ok (RValue.hash [(RValue.str ("a"), RValue.str ("x"))]) := by
  refine Eq.trans (dict_odd_children_drop_trailing_key env0 none
    [(PNode.mk PTagKind.key (some ("a")) [], PNode.mk PTagKind.string (some ("x")) [])]
    (fun _ => RValue.str ("x")) (PNode.mk PTagKind.key (some ("z")) []) ?_ rfl) rfl
  intro p hp
  fin_cases hp
  exact ⟨rfl, rfl⟩

/-- C4 counterexample: two text runs delivered for the same string node
(separated by a comment) do not concatenate — the node's final text, and
hence its converted value, is the last run alone. -/
theorem text_concatenation_counterexample :
    parse_xml env0 ("<string>ab<!--x-->cd</string>") = Except.ok (RValue.str ("cd")) ∧
      ("cd" : String) ≠ ("ab" : String) ++ ("cd") :=
  ⟨rfl, by decide⟩

/-- C4 (amended): `Listener#text` assigns rather than appends — after two
text events on the same non-empty stack, the top node's text equals the last
delivered run alone, whatever was delivered before. -/
theorem text_event_overwrites (st : LState) (top : PNode) (rest : List PNode)
    (c1 c2 : String) (h : st.openStack = top :: rest) :
    (Listener.text (Listener.text st c1) c2).openStack =
      top.withText (some c2) :: rest := by
  cases st with
  | mk res stack =>
    cases top with
    | mk k t ch =>
      simp only at h
      subst h
      rfl

/-- C4 witness: the amended theorem applied to a one-node stack receiving
`ab` then `cd`. -/
theorem text_event_overwrites_witness :
    (Listener.text (Listener.text
        { result := RValue.null, openStack := [PNode.mk PTagKind.string none []] }
        ("ab")) ("cd")).openStack =
      [PNode.mk PTagKind.string (some ("cd")) []] :=
  text_event_overwrites _ (PNode.mk PTagKind.string none []) [] ("ab") ("cd") rfl

/-- C5 counterexample: `<foo>bar</foo>` inside an otherwise valid document
does make the parse fail, but with the scanner's unimplemented-element raise
(the MalformedDocument condition), not with UnknownTag — the unregistered
name never matches the tag patterns, so it never reaches the registry. -/
theorem unknown_tag_condition_counterexample :
    parse_xml env0 ("<plist><foo>bar</foo></plist>") =
        Except.error PErr.unimplementedElement ∧
      PErr.unimplementedElement ≠ PErr.unknownTag :=
  ⟨rfl, by decide⟩

/-- C5 (amended): a document containing an element whose name is outside the
recognized vocabulary fails — no partial tree is returned — but the condition
is the scanner's `raise "Unimplemented element"` (MalformedDocument), for any
environment. -/
theorem unknown_tag_raises_unimplemented (env : Env) :
    parse_xml env ("<plist><foo>bar</foo></plist>") =
      Except.error PErr.unimplementedElement := rfl

/-- C6 counterexample: the uppercase spelling `<DICT></DICT>` does not behave
like `<dict></dict>` — the former fails with the failed registry lookup
(UnknownTag) while the latter parses to the empty mapping. -/
theorem uppercase_tag_counterexample :
    parse_xml env0 ("<DICT></DICT>") = Except.error PErr.unknownTag ∧
      parse_xml env0 ("<dict></dict>") = Except.ok (RValue.hash []) :=
  ⟨rfl, rfl⟩

/-- C6 (amended): the scanner's patterns do match tag names
case-insensitively and emit the event with the original spelling, but the
builder's registry lookup is exact-case, so a non-lowercase spelling of a
registered name fails with UnknownTag instead of constructing the node. -/
theorem case_insensitive_scan_case_sensitive_lookup (env : Env) :
    scanStep ("<DICT></DICT>").data =
        Except.ok ([Event.tagStart ("DICT")], ("</DICT>").data) ∧
      parse_xml env ("<DICT></DICT>") = Except.error PErr.unknownTag :=
  ⟨rfl, rfl⟩

/-- C7: a dict node whose children alternate as (key, value) pairs converts
to the mapping from each key's converted string to the following child's
converted value, built with Ruby hash-assignment semantics (insertion order
fixed at first write, last write wins on a duplicate key). -/
theorem dict_alternating_children_build_hash (env : Env) (dtext : Option String)
    (items : List (PNode × PNode)) (v : PNode → RValue)
    (h : ∀ p ∈ items, p.1.kind = PTagKind.key ∧ to_ruby env p.2 = Except.ok (v p.2)) :
    to_ruby env (PNode.mk PTagKind.dict dtext (pairsFlatten items)) =
      Except.ok (RValue.hash (dictOfPairs v items)) := by
  have e : to_ruby env (PNode.mk PTagKind.dict dtext (pairsFlatten items)) =
      (dictGo env (pairsFlatten items) none []).map RValue.hash := rfl
  have e2 : pairsFlatten items = pairsFlatten items ++ [] := by simp
  rw [e, e2, dictGo_pairs env v items [] [] h]
  rfl

/-- C7 witness: the theorem applied to the specification's example, children
`[key("a"), string("x"), key("b"), integer("2")]`, giving the mapping
`{"a" => "x", "b" => 2}`. -/
theorem dict_alternating_children_build_hash_witness :
    to_ruby env0 (PNode.mk PTagKind.dict none
        [PNode.mk PTagKind.key (some ("a")) [], PNode.mk PTagKind.string (some ("x")) [],
          PNode.mk PTagKind.key (some ("b")) [], PNode.mk PTagKind.integer (some ("2")) []]) =
      Except.ok (RValue.hash
        [(RValue.str ("a"), RValue.str ("x")), (RValue.str ("b"), RValue.int 2)]) := by
  refine Eq.trans (dict_alternating_children_build_hash env0 none
    [(PNode.mk PTagKind.key (some ("a")) [], PNode.mk PTagKind.string (some ("x")) []),
      (PNode.mk PTagKind.key (some ("b")) [], PNode.mk PTagKind.integer (some ("2")) [])]
    (fun n => match n with
      | PNode.mk PTagKind.string _ _ => RValue.str ("x")
      | _ => RValue.int 2) ?_) rfl
  intro p hp
  fin_cases hp
  · exact ⟨rfl, rfl⟩
  · exact ⟨rfl, rfl⟩

/-- C8: when the deserialization transform (`Marshal.load`) fails on the
base64-decoded bytes of a data node, conversion does not fail — it returns
the byte-buffer (StringIO) fallback over the raw decoded bytes. -/
theorem data_marshal_failure_returns_io (env : Env) (t : String) (ch : List PNode)
    (h : env.marshalLoad (env.base64decode (stripWs t)) = none) :
    to_ruby env (PNode.mk PTagKind.data (some t) ch) =
      Except.ok (RValue.ioHandle (env.base64decode (stripWs t))) := by
  have e : to_ruby env (PNode.mk PTagKind.data (some t) ch) =
      (match env.marshalLoad (env.base64decode (stripWs t)) with
        | some v => Except.ok v
        | none => Except.ok (RValue.ioHandle (env.base64decode (stripWs t)))) := rfl
  rw [e, h]

/-- C8 witness: the theorem applied in an environment whose marshal load
always fails, on the data text `QUJD`. -/
theorem data_marshal_failure_returns_io_witness :
    to_ruby env0 (PNode.mk PTagKind.data (some ("QUJD")) []) =
      Except.ok (RValue.ioHandle ("QUJD")) :=
  data_marshal_failure_returns_io env0 ("QUJD") [] rfl

/-- C9: a plist node converts to its first child's converted value when it
has at least one child, and to the nil absence-value (not an error) when it
has no children. -/
theorem plist_first_child_or_null (env : Env) (t : Option String) :
    (∀ (c : PNode) (ch : List PNode),
        to_ruby env (PNode.mk PTagKind.plist t (c :: ch)) = to_ruby env c) ∧
      to_ruby env (PNode.mk PTagKind.plist t []) = Except.ok RValue.null :=
  ⟨fun _ _ => rfl, rfl⟩

/-- C10: key and string conversion equals HTML-unescaping of the node's text
with an absent text defaulting to the empty string; in particular a node
whose text was never set converts to the empty string, not to a failure or an
absence-value. -/
theorem key_string_unescape_default_empty (env : Env) (t : Option String) (ch : List PNode) :
    (to_ruby env (PNode.mk PTagKind.key t ch) =
        Except.ok (RValue.str (unescapeHTML (t.getD ""))) ∧
      to_ruby env (PNode.mk PTagKind.string t ch) =
        Except.ok (RValue.str (unescapeHTML (t.getD "")))) ∧
      to_ruby env (PNode.mk PTagKind.key none ch) = Except.ok (RValue.str "") ∧
      to_ruby env (PNode.mk PTagKind.string none ch) = Except.ok (RValue.str "") :=
  ⟨⟨rfl, rfl⟩, rfl, rfl⟩

end Plist
